import Mathlib

/-!
Shallow embedding of `finance_dl/ofx.py` (the OFX synchronizer of finance-dl).

Dates in the synchronization logic are modelled as natural numbers (ordinal
days, mirroring `datetime.date` arithmetic: subtraction of dates gives the
number of days, comparison is calendar order).  The server is modelled as a
function from a requested start date to the OFX response bytes already parsed
into the fields the code inspects (`dtstart`, `dtend`, `message` elements).
Python exceptions are modelled with `Option`/`Except` (`none` / `.error`
meaning an exception escapes), and file-system effects are modelled by
returning the list of fetch start dates issued and the list of date ranges
saved to disk.
-/

namespace FinanceDl

/-- A closed date interval `(start_date, end_date)` as stored in the
`date_ranges` list of `save_single_account_data`, in ordinal days. -/
abbrev DateRange := Nat × Nat

/-- The fields of an OFX server response that `ofx.py` inspects:
`dtstart`/`dtend` as located by `find_child(soup, 'dtstart'/'dtend',
parse_ofx_time)` (absent marker modelled as `none`), and the text of the
`message` elements. -/
structure OfxResponse where
  dtstart : Option Nat
  dtend : Option Nat
  messages : List String
deriving DecidableEq, Repr

/-- `get_ofx_date_range` (ofx.py lines 174-183): returns `(dtstart, dtend)`
when both markers are present, otherwise logs the `message` elements and
returns `None`.  It is a total function: no exception can escape. -/
def get_ofx_date_range (resp : OfxResponse) : Option DateRange :=
  match resp.dtstart, resp.dtend with
  | some s, some e => some (s, e)
  | _, _ => none

/-- One step of `get_earliest_data`'s binary-search loop (ofx.py lines
196-210), made structurally recursive on a fuel argument.  The Python loop
runs while `lower_bound + 1 day < upper_bound`; each iteration strictly
shrinks `upper_bound - lower_bound`, so fuel `upper - lower` is always
sufficient.  Returns the last recorded valid date range (or `none`, which in
Python becomes the `RuntimeError` at lines 211-213) together with the list of
fetch start dates issued. -/
def binSearchAux (download : Nat → OfxResponse) :
    Nat → Nat → Nat → Option DateRange → Option DateRange × List Nat
  | 0, _, _, valid => (valid, [])
  | fuel + 1, lower, upper, valid =>
    if lower + 1 < upper then
      let mid := lower + (upper - lower) / 2
      match get_ofx_date_range (download mid) with
      | some r =>
        let p := binSearchAux download fuel lower mid (some r)
        (p.1, mid :: p.2)
      | none =>
        let p := binSearchAux download fuel mid upper valid
        (p.1, mid :: p.2)
    else (valid, [])

/-- `get_earliest_data` (ofx.py lines 186-214): binary search over
`[min_start_date, today]`.  A `none` first component models the
`RuntimeError('Failed to retrieve any data for account')`. -/
def get_earliest_data (download : Nat → OfxResponse) (minStart today : Nat) :
    Option DateRange × List Nat :=
  binSearchAux download (today - minStart) minStart today none

/-- Lexicographic order on date-range pairs, as used by Python's
`date_ranges.sort()` on tuples of `datetime.date`. -/
def rangeLe (a b : DateRange) : Bool :=
  decide (a.1 < b.1) || (decide (a.1 = b.1) && decide (a.2 ≤ b.2))

/-- Ordered insertion used to implement `date_ranges.sort()`. -/
def insertRange (x : DateRange) : List DateRange → List DateRange
  | [] => [x]
  | y :: ys => if rangeLe x y then x :: y :: ys else y :: insertRange x ys

/-- `date_ranges.sort()`: sorting by `(start_date, end_date)`. -/
def sortRanges (l : List DateRange) : List DateRange :=
  l.foldr insertRange []

/-- The gap-selection scan at the top of `retrieve_more` (ofx.py lines
299-307): iterate over the sorted `date_ranges`; `continue` while the current
range's end date exceeds the next range's start date (an overlap), `break` at
the first gap or abutment, or at the last range.  `none` models the `None`
subscript crash on an empty list (never reached by the callers). -/
def selectRange : List DateRange → Option DateRange
  | [] => none
  | [r] => some r
  | r :: r' :: rest => if r'.1 < r.2 then selectRange (r' :: rest) else some r

/-- Result of one call of `retrieve_more` (ofx.py lines 298-320):
whether it returned `True`, the fetch start dates issued, the date ranges
saved to disk by `save_data`, and the updated `date_ranges` list. -/
structure MoreResult where
  progress : Bool
  fetches : List Nat
  saved : List DateRange
  ranges : List DateRange
deriving DecidableEq, Repr

/-- `retrieve_more` (ofx.py lines 298-320).  Fetches starting at the selected
range's end date minus `overlap_days`; a response without a usable date range
returns `False` with nothing saved; a response whose end date equals the
selected end date returns `False`, saving only when `always_save`; otherwise
the response is saved (`save_data` appends and re-sorts `date_ranges`) and
`True` is returned. -/
def retrieve_more (download : Nat → OfxResponse) (overlap : Nat)
    (alwaysSave : Bool) (ranges : List DateRange) : Option MoreResult :=
  match selectRange ranges with
  | none => none
  | some cur =>
    let fetchStart := cur.2 - overlap
    match get_ofx_date_range (download fetchStart) with
    | none => some ⟨false, [fetchStart], [], ranges⟩
    | some r =>
      if r.2 = cur.2 then
        if alwaysSave then
          some ⟨false, [fetchStart], [r], sortRanges (ranges ++ [r])⟩
        else
          some ⟨false, [fetchStart], [], ranges⟩
      else
        some ⟨true, [fetchStart], [r], sortRanges (ranges ++ [r])⟩

/-- The `while True` loop at the bottom of `save_single_account_data`
(ofx.py lines 322-327): call `retrieve_more`; break when it returns `False`;
break when `(today - date_ranges[-1][0]).days <= min_days_retrieved`.
Returns the fetch start dates issued, the ranges saved, and the final
`date_ranges`; `none` models nontermination (fuel exhaustion) or a crash. -/
def phase2 (download : Nat → OfxResponse) (today overlap minDays : Nat)
    (alwaysSave : Bool) : Nat → List DateRange →
    Option (List Nat × List DateRange × List DateRange)
  | 0, _ => none
  | fuel + 1, ranges =>
    match retrieve_more download overlap alwaysSave ranges with
    | none => none
    | some res =>
      if res.progress then
        match res.ranges.getLast? with
        | none => none
        | some lastR =>
          if today - lastR.1 ≤ minDays then
            some (res.fetches, res.saved, res.ranges)
          else
            match phase2 download today overlap minDays alwaysSave fuel res.ranges with
            | none => none
            | some (fs, sv, rs) => some (res.fetches ++ fs, res.saved ++ sv, rs)
      else
        some (res.fetches, res.saved, res.ranges)

/-- The selection rule of the gap-fill step as the spec words it: scan the
sorted Coverage Set for the first position `i` where interval `i`'s end date
does not exceed the start date of interval `i + 1`, or, if no such position
exists, the last interval; return that interval. -/
def selectSpec (rs : List DateRange) : Option DateRange :=
  ((List.range rs.length).find? fun i =>
      decide (i + 1 = rs.length) ||
        decide ((rs.getD i (0, 0)).2 ≤ (rs.getD (i + 1) (0, 0)).1)).map
    fun i => rs.getD i (0, 0)

/-- `save_single_account_data` (ofx.py lines 217-327) after the directory has
been read into `existing` (the parsed `date_ranges`): when no files exist, a
bootstrap binary search runs (its `RuntimeError` is caught at lines 292-294,
logging a warning and returning with nothing saved); otherwise, and after a
successful bootstrap save, the gap-fill loop runs.  Returns
`(fetch start dates, saved ranges, final date_ranges)`. -/
def save_single_account_data (download : Nat → OfxResponse)
    (today overlap minDays minStart : Nat) (alwaysSave : Bool) (fuel : Nat)
    (existing : List DateRange) :
    Option (List Nat × List DateRange × List DateRange) :=
  if existing.isEmpty then
    match get_earliest_data download minStart today with
    | (none, fetches) => some (fetches, [], [])
    | (some r, fetches) =>
      match phase2 download today overlap minDays alwaysSave fuel (sortRanges [r]) with
      | none => none
      | some (fs, sv, rs) => some (fetches ++ fs, r :: sv, rs)
  else phase2 download today overlap minDays alwaysSave fuel existing

/-- The character class `[a-z0-9A-Z.-]` of `sanitize_account_name`. -/
def validChar (c : Char) : Bool :=
  decide ('a' ≤ c) && decide (c ≤ 'z') ||
    decide ('0' ≤ c) && decide (c ≤ '9') ||
      decide ('A' ≤ c) && decide (c ≤ 'Z') || decide (c = '.') || decide (c = '-')

/-- `re.sub('[^a-z0-9A-Z.-]+', '-', account_name)`: replace every maximal run
of invalid characters with a single dash.  The boolean argument records
whether the previous character was part of such a run. -/
def collapseAux : Bool → List Char → List Char
  | _, [] => []
  | inRun, c :: cs =>
    if validChar c then c :: collapseAux false cs
    else if inRun then collapseAux true cs else '-' :: collapseAux true cs

/-- `sanitize_account_name` (ofx.py lines 144-152): raises `ValueError`
(modelled as `.error ()`) on the literal names `.` and `..`, otherwise
replaces each run of invalid characters with a dash. -/
def sanitize_account_name (name : List Char) : Except Unit (List Char) :=
  if name = ['.'] ∨ name = ['.', '.'] then Except.error ()
  else Except.ok (collapseAux false name)

/-- Python `acct_dir_map` lookup (`a.number in acct_dir_map`). -/
def lookupAcct (m : List (List Char × List Char)) (k : List Char) :
    Option (List Char) :=
  (m.find? fun p => p.1 == k).map fun p => p.2

/-- The directory-name computation in `save_all_account_data` (ofx.py lines
345-353): the `acct_dir_map` entry when present, otherwise
`sanitize_account_name`, with the `ValueError` caught, a warning logged, and
the name `blank` used instead. -/
def accountDirName (m : List (List Char × List Char)) (number : List Char) :
    List Char :=
  match lookupAcct m number with
  | some name => name
  | none =>
    match sanitize_account_name number with
    | Except.ok n => n
    | Except.error _ => ['b', 'l', 'a', 'n', 'k']

/-- `save_all_account_data` (ofx.py lines 330-355): for every account, the
output subdirectory name is computed (never raising), and
`save_single_account_data` is invoked for the account.  `download` and
`existing` give each account's server responses and already-present files. -/
def save_all_account_data (accounts : List (List Char))
    (m : List (List Char × List Char)) (download : List Char → Nat → OfxResponse)
    (today overlap minDays minStart : Nat) (alwaysSave : Bool) (fuel : Nat)
    (existing : List Char → List DateRange) :
    List (List Char × Option (List Nat × List DateRange × List DateRange)) :=
  accounts.map fun a =>
    (accountDirName m a,
      save_single_account_data (download a) today overlap minDays minStart
        alwaysSave fuel (existing a))

/-- A calendar date, as carried by Python `datetime.date` objects in the
filename-parsing part of `save_single_account_data`. -/
structure Date where
  year : Nat
  month : Nat
  day : Nat
deriving DecidableEq, Repr

/-- Calendar order on dates (Python `date` comparison): lexicographic on
`(year, month, day)`. -/
def Date.lt (a b : Date) : Bool :=
  decide (a.year < b.year) ||
    (decide (a.year = b.year) &&
      (decide (a.month < b.month) ||
        (decide (a.month = b.month) && decide (a.day < b.day))))

/-- `a <= b` on dates, derived from the strict order. -/
def Date.le (a b : Date) : Bool := !Date.lt b a

/-- Gregorian leap-year rule, as in Python's `datetime`. -/
def isLeapYear (y : Nat) : Bool :=
  decide (y % 4 = 0) && (decide (y % 100 ≠ 0) || decide (y % 400 = 0))

/-- Number of days of month `m` of year `y`, as validated by Python's
`datetime` constructor. -/
def daysInMonth (y m : Nat) : Nat :=
  if m = 2 then (if isLeapYear y then 29 else 28)
  else if m = 4 ∨ m = 6 ∨ m = 9 ∨ m = 11 then 30
  else 31

/-- A date `datetime.date` accepts: year in `[1, 9999]`, month in `[1, 12]`,
day in `[1, daysInMonth]`. -/
def validDate (d : Date) : Prop :=
  1 ≤ d.year ∧ d.year ≤ 9999 ∧ 1 ≤ d.month ∧ d.month ≤ 12 ∧
    1 ≤ d.day ∧ d.day ≤ daysInMonth d.year d.month

instance (d : Date) : Decidable (validDate d) := by
  unfold validDate
  infer_instance

/-- The decimal digit character for `k < 10` (any larger argument is
unreachable: callers pass `_ % 10`). -/
def digitChar : Nat → Char
  | 0 => '0'
  | 1 => '1'
  | 2 => '2'
  | 3 => '3'
  | 4 => '4'
  | 5 => '5'
  | 6 => '6'
  | 7 => '7'
  | 8 => '8'
  | _ => '9'

/-- Numeric value of a decimal digit character. -/
def digitVal (c : Char) : Nat := c.toNat - 48

/-- `'%04d'`-style rendering of `n ≤ 9999`, as `strftime('%Y')` produces for
four-digit years. -/
def pad4 (n : Nat) : List Char :=
  [digitChar (n / 1000 % 10), digitChar (n / 100 % 10),
    digitChar (n / 10 % 10), digitChar (n % 10)]

/-- `'%02d'`-style rendering of `n ≤ 99`, as `strftime('%m')`/`strftime('%d')`
produce. -/
def pad2 (n : Nat) : List Char :=
  [digitChar (n / 10 % 10), digitChar (n % 10)]

/-- `date.strftime('%Y%m%d')`: the eight-digit date rendering used in the
saved filenames. -/
def Date.format8 (d : Date) : List Char :=
  pad4 d.year ++ pad2 d.month ++ pad2 d.day

/-- `datetime.datetime.strptime(s, '%Y%m%d').date()` on an eight-digit
string: split as four/two/two digits and validate the calendar date;
`none` models the `ValueError`. -/
def parse8 (s : List Char) : Option Date :=
  match s with
  | [y1, y2, y3, y4, m1, m2, d1, d2] =>
    let y := ((digitVal y1 * 10 + digitVal y2) * 10 + digitVal y3) * 10 + digitVal y4
    let m := digitVal m1 * 10 + digitVal m2
    let d := digitVal d1 * 10 + digitVal d2
    if 1 ≤ y ∧ 1 ≤ m ∧ m ≤ 12 ∧ 1 ≤ d ∧ d ≤ daysInMonth y m then
      some ⟨y, m, d⟩
    else none
  | _ => none

/-- Match exactly `k` decimal digits at the front of a character list,
returning them and the remainder (the `[0-9]{8}` pieces of the filename
regular expression). -/
def matchDigits : Nat → List Char → Option (List Char × List Char)
  | 0, l => some ([], l)
  | _ + 1, [] => none
  | k + 1, c :: l =>
    if c.isDigit then (matchDigits k l).map fun p => (c :: p.1, p.2)
    else none

/-- Greedy digit run (`[0-9]+`): longest digit prefix and the remainder. -/
def splitDigits : List Char → List Char × List Char
  | [] => ([], [])
  | c :: cs =>
    if c.isDigit then
      let p := splitDigits cs
      (c :: p.1, p.2)
    else ([], c :: cs)

/-- `re.match(r'^([0-9]{8})-([0-9]{8})--([0-9]+)\.ofx', name)` (ofx.py line
265): anchored at the start only, so arbitrary trailing characters are
allowed after `.ofx`.  Returns the two eight-digit date fields. -/
def matchOfxName (name : List Char) : Option (List Char × List Char) :=
  match matchDigits 8 name with
  | none => none
  | some (s8, r1) =>
    match r1 with
    | '-' :: r2 =>
      match matchDigits 8 r2 with
      | none => none
      | some (e8, r3) =>
        match r3 with
        | '-' :: '-' :: r4 =>
          let p := splitDigits r4
          if p.1.isEmpty then none
          else
            match p.2 with
            | '.' :: 'o' :: 'f' :: 'x' :: _ => some (s8, e8)
            | _ => none
        | _ => none
    | _ => none

/-- A file name of the shape `<s8>-<e8>--<ts>.ofx<rest>`: two eight-digit
date fields, a timestamp digit run, the `.ofx` suffix, and arbitrary
trailing characters `rest` (the naming scheme of `save_data`, ofx.py lines
281-282, with `rest = []`). -/
def ofxFileName (s8 e8 ts rest : List Char) : List Char :=
  s8 ++ '-' :: (e8 ++ '-' :: '-' :: (ts ++ '.' :: 'o' :: 'f' :: 'x' :: rest))

/-- Lexicographic order on pairs of dates, as `date_ranges.sort()` compares
tuples of `datetime.date`. -/
def drLe (a b : Date × Date) : Bool :=
  Date.lt a.1 b.1 || (decide (a.1 = b.1) && Date.le a.2 b.2)

/-- Ordered insertion for sorting parsed date ranges. -/
def insertDR (x : Date × Date) : List (Date × Date) → List (Date × Date)
  | [] => [x]
  | y :: ys => if drLe x y then x :: y :: ys else y :: insertDR x ys

/-- `date_ranges.sort()` in the filename world. -/
def sortDR (l : List (Date × Date)) : List (Date × Date) :=
  l.foldr insertDR []

/-- The directory scan of `save_single_account_data` (ofx.py lines 264-275)
over the listed file names: names not matching the pattern are skipped; a
matching name is parsed with `strptime` (whose `ValueError` propagates,
modelled as `.error ()`); a parsed range with start after end is logged and
skipped; the rest are collected. -/
def scanNames : List (List Char) → Except Unit (List (Date × Date))
  | [] => Except.ok []
  | n :: ns =>
    match matchOfxName n with
    | none => scanNames ns
    | some (s8, e8) =>
      match parse8 s8, parse8 e8 with
      | some s, some e =>
        if Date.lt e s then scanNames ns
        else (scanNames ns).map fun l => (s, e) :: l
      | _, _ => Except.error ()

/-- Phase 0 of `save_single_account_data`: scan the directory listing and
sort the resulting Coverage Set by start date (ofx.py lines 264-276). -/
def readDateRanges (names : List (List Char)) :
    Except Unit (List (Date × Date)) :=
  (scanNames names).map sortDR

theorem digitVal_digitChar : ∀ k, k < 10 → digitVal (digitChar k) = k := by
  decide

theorem isDigit_digitChar : ∀ k, k < 10 → (digitChar k).isDigit = true := by
  decide

theorem pad4_all_digits (n : Nat) : (pad4 n).all Char.isDigit = true := by
  have h1 := isDigit_digitChar (n / 1000 % 10) (Nat.mod_lt _ (by norm_num))
  have h2 := isDigit_digitChar (n / 100 % 10) (Nat.mod_lt _ (by norm_num))
  have h3 := isDigit_digitChar (n / 10 % 10) (Nat.mod_lt _ (by norm_num))
  have h4 := isDigit_digitChar (n % 10) (Nat.mod_lt _ (by norm_num))
  simp [pad4, h1, h2, h3, h4]

theorem pad2_all_digits (n : Nat) : (pad2 n).all Char.isDigit = true := by
  have h3 := isDigit_digitChar (n / 10 % 10) (Nat.mod_lt _ (by norm_num))
  have h4 := isDigit_digitChar (n % 10) (Nat.mod_lt _ (by norm_num))
  simp [pad2, h3, h4]

theorem format8_length (d : Date) : (Date.format8 d).length = 8 := rfl

theorem format8_all_digits (d : Date) :
    (Date.format8 d).all Char.isDigit = true := by
  simp [Date.format8, List.all_append, pad4_all_digits, pad2_all_digits]

theorem daysInMonth_le_31 (y m : Nat) : daysInMonth y m ≤ 31 := by
  unfold daysInMonth
  split_ifs <;> omega

theorem parse8_format8 (dt : Date) (h : validDate dt) :
    parse8 (Date.format8 dt) = some dt := by
  obtain ⟨y, mo, da⟩ := dt
  obtain ⟨hy1, hy2, hm1, hm2, hd1, hd2⟩ := h
  simp only at hy1 hy2 hm1 hm2 hd1 hd2
  have hdm := daysInMonth_le_31 y mo
  simp only [Date.format8, pad4, pad2, List.cons_append, List.nil_append]
  dsimp only [parse8]
  have hY : ((digitVal (digitChar (y / 1000 % 10)) * 10 +
        digitVal (digitChar (y / 100 % 10))) * 10 +
          digitVal (digitChar (y / 10 % 10))) * 10 +
        digitVal (digitChar (y % 10)) = y := by
    rw [digitVal_digitChar _ (Nat.mod_lt _ (by norm_num)),
      digitVal_digitChar _ (Nat.mod_lt _ (by norm_num)),
      digitVal_digitChar _ (Nat.mod_lt _ (by norm_num)),
      digitVal_digitChar _ (Nat.mod_lt _ (by norm_num))]
    omega
  have hM : digitVal (digitChar (mo / 10 % 10)) * 10 +
      digitVal (digitChar (mo % 10)) = mo := by
    rw [digitVal_digitChar _ (Nat.mod_lt _ (by norm_num)),
      digitVal_digitChar _ (Nat.mod_lt _ (by norm_num))]
    omega
  have hD : digitVal (digitChar (da / 10 % 10)) * 10 +
      digitVal (digitChar (da % 10)) = da := by
    rw [digitVal_digitChar _ (Nat.mod_lt _ (by norm_num)),
      digitVal_digitChar _ (Nat.mod_lt _ (by norm_num))]
    omega
  rw [hY, hM, hD]
  rw [if_pos ⟨hy1, hm1, hm2, hd1, hd2⟩]

theorem matchDigits_exact (ds : List Char) (rest : List Char)
    (hd : ds.all Char.isDigit = true) :
    matchDigits ds.length (ds ++ rest) = some (ds, rest) := by
  induction ds with
  | nil => rfl
  | cons c t ih =>
    simp only [List.all_cons, Bool.and_eq_true] at hd
    simp only [List.length_cons, List.cons_append, matchDigits, hd.1, if_true,
      List.append_eq, ih hd.2, Option.map_some]
    rfl

theorem matchDigits_eight (ds rest : List Char) (h8 : ds.length = 8)
    (hd : ds.all Char.isDigit = true) :
    matchDigits 8 (ds ++ rest) = some (ds, rest) :=
  h8 ▸ matchDigits_exact ds rest hd

theorem splitDigits_append (ts : List Char) (r : List Char)
    (hd : ts.all Char.isDigit = true) :
    splitDigits (ts ++ '.' :: r) = (ts, '.' :: r) := by
  induction ts with
  | nil => simp [splitDigits]
  | cons c t ih =>
    simp only [List.all_cons, Bool.and_eq_true] at hd
    simp only [List.cons_append, splitDigits, hd.1, if_true, List.append_eq,
      ih hd.2]

theorem matchOfxName_spec (s8 e8 ts rest : List Char)
    (h1 : s8.length = 8) (h2 : s8.all Char.isDigit = true)
    (h3 : e8.length = 8) (h4 : e8.all Char.isDigit = true)
    (h5 : ts ≠ []) (h6 : ts.all Char.isDigit = true) :
    matchOfxName (ofxFileName s8 e8 ts rest) = some (s8, e8) := by
  unfold ofxFileName matchOfxName
  rw [matchDigits_eight s8 ('-' :: (e8 ++ '-' :: '-' :: (ts ++ '.' :: 'o' :: 'f' :: 'x' :: rest))) h1 h2]
  simp only []
  rw [matchDigits_eight e8 ('-' :: '-' :: (ts ++ '.' :: 'o' :: 'f' :: 'x' :: rest)) h3 h4]
  simp only []
  rw [splitDigits_append ts ('o' :: 'f' :: 'x' :: rest) h6]
  have hne : ts.isEmpty = false := by
    cases ts with
    | nil => exact absurd rfl h5
    | cons a b => rfl
  simp only [hne]
  rfl

theorem scanNames_single (s e : Date) (ts rest : List Char)
    (hs : validDate s) (he : validDate e)
    (hts : ts ≠ []) (htsd : ts.all Char.isDigit = true) :
    scanNames [ofxFileName (Date.format8 s) (Date.format8 e) ts rest] =
      (if Date.lt e s then Except.ok [] else Except.ok [(s, e)]) := by
  simp only [scanNames]
  rw [matchOfxName_spec (Date.format8 s) (Date.format8 e) ts rest
    (format8_length s) (format8_all_digits s) (format8_length e)
    (format8_all_digits e) hts htsd]
  dsimp only
  rw [parse8_format8 s hs, parse8_format8 e he]
  dsimp only
  by_cases hlt : Date.lt e s
  · rw [if_pos hlt, if_pos hlt]
  · rw [if_neg hlt, if_neg hlt]
    rfl

/-- C7: filename round trip.  For a well-formed filename
`<s>-<e>--<t>.ofx` built from valid calendar dates with `s ≤ e`, running
Phase 0 on a directory containing only that file reconstructs a Coverage
Set of exactly one interval `(s, e)`; when the encoded start date is after
the end date, the file is logged and excluded, yielding an empty Coverage
Set. -/
theorem c7_filename_round_trip (s e : Date) (ts : List Char)
    (hs : validDate s) (he : validDate e)
    (hts : ts ≠ []) (htsd : ts.all Char.isDigit = true) :
    (Date.le s e = true →
      readDateRanges [ofxFileName (Date.format8 s) (Date.format8 e) ts []] =
        Except.ok [(s, e)]) ∧
    (Date.le s e = false →
      readDateRanges [ofxFileName (Date.format8 s) (Date.format8 e) ts []] =
        Except.ok []) := by
  have hscan := scanNames_single s e ts [] hs he hts htsd
  constructor
  · intro hle
    have hb : (!Date.lt e s) = true := hle
    have hlt : Date.lt e s = false := by simpa using hb
    unfold readDateRanges
    rw [hscan]
    simp only [hlt, Bool.false_eq_true, if_false]
    rfl
  · intro hle
    have hb : (!Date.lt e s) = false := hle
    have hlt : Date.lt e s = true := by simpa using hb
    unfold readDateRanges
    rw [hscan]
    simp only [hlt, if_true]
    rfl

theorem c7_witness :
    readDateRanges
        [ofxFileName (Date.format8 ⟨2020, 1, 1⟩) (Date.format8 ⟨2020, 1, 31⟩)
          ['1'] []] =
      Except.ok [(⟨2020, 1, 1⟩, ⟨2020, 1, 31⟩)] :=
  (c7_filename_round_trip ⟨2020, 1, 1⟩ ⟨2020, 1, 31⟩ ['1'] (by decide)
    (by decide) (by decide) (by decide)).1 (by decide)

/-- C10 (amended): Phase 0 filename matching is prefix-only — any directory
entry beginning with the pattern eight digits, dash, eight digits, double
dash, digits, `.ofx` is matched, with arbitrary trailing characters after
`.ofx` allowed — and such an entry enters the Coverage Set provided its two
date fields decode to valid calendar dates with start not after end.  (A
matching entry whose start date is after its end date is excluded; see the
counterexample.) -/
theorem c10_prefix_match (s e : Date) (ts rest : List Char)
    (hs : validDate s) (he : validDate e)
    (hts : ts ≠ []) (htsd : ts.all Char.isDigit = true)
    (hle : Date.le s e = true) :
    readDateRanges [ofxFileName (Date.format8 s) (Date.format8 e) ts rest] =
      Except.ok [(s, e)] := by
  have hscan := scanNames_single s e ts rest hs he hts htsd
  have hb : (!Date.lt e s) = true := hle
  have hlt : Date.lt e s = false := by simpa using hb
  unfold readDateRanges
  rw [hscan]
  simp only [hlt, Bool.false_eq_true, if_false]
  rfl

theorem c10_witness :
    readDateRanges
        [ofxFileName (Date.format8 ⟨2020, 1, 1⟩) (Date.format8 ⟨2020, 1, 31⟩)
          ['1', '2', '3'] ['.', 'b', 'a', 'k']] =
      Except.ok [(⟨2020, 1, 1⟩, ⟨2020, 1, 31⟩)] :=
  c10_prefix_match ⟨2020, 1, 1⟩ ⟨2020, 1, 31⟩ ['1', '2', '3']
    ['.', 'b', 'a', 'k'] (by decide) (by decide) (by decide) (by decide)
    (by decide)

/-- C10 counterexample: the directory entry `20200131-20200101--1.ofx.bak`
begins with the pattern (the first conjunct shows the prefix match
succeeds), yet it is not parsed into the Coverage Set: its encoded start
date is after its end date, so Phase 0 logs and excludes it, refuting the
claim's "every directory entry whose name merely begins with the pattern
... is parsed into the Coverage Set". -/
theorem c10_counterexample :
    matchOfxName
        (ofxFileName (Date.format8 ⟨2020, 1, 31⟩) (Date.format8 ⟨2020, 1, 1⟩)
          ['1'] ['.', 'b', 'a', 'k']) =
      some (Date.format8 ⟨2020, 1, 31⟩, Date.format8 ⟨2020, 1, 1⟩) ∧
      readDateRanges
          [ofxFileName (Date.format8 ⟨2020, 1, 31⟩) (Date.format8 ⟨2020, 1, 1⟩)
            ['1'] ['.', 'b', 'a', 'k']] =
        Except.ok [] :=
  ⟨rfl, rfl⟩

/-- C8: whenever either of the `dtstart`/`dtend` markers is absent from the
response, `get_ofx_date_range` returns the no-usable-interval sentinel
(`none`); being a total function it never raises, it never fabricates the
missing bound, and the `message` fields influence logging only, never the
result. -/
theorem c8_missing_marker_yields_none (resp : OfxResponse)
    (h : resp.dtstart = none ∨ resp.dtend = none) :
    get_ofx_date_range resp = none ∧
      ∀ ms, get_ofx_date_range ⟨resp.dtstart, resp.dtend, ms⟩ = none := by
  obtain ⟨s, e, msgs⟩ := resp
  simp only at h
  rcases h with h | h <;> subst h <;>
    first
      | exact ⟨rfl, fun _ => rfl⟩
      | exact ⟨by cases s <;> rfl, fun _ => by cases s <;> rfl⟩

theorem c8_witness :
    get_ofx_date_range ⟨none, some 5, ["general error"]⟩ = none ∧
      ∀ ms, get_ofx_date_range ⟨none, some 5, ms⟩ = none :=
  c8_missing_marker_yields_none ⟨none, some 5, ["general error"]⟩ (Or.inl rfl)

/-- C6: when the bootstrap binary search observes no valid response (the
`RuntimeError` of `get_earliest_data`), `save_single_account_data` catches
it, logs a warning, and returns normally: the result is a defined value
(no exception propagates) with an empty list of saved files. -/
theorem c6_bootstrap_failure_returns_cleanly (download : Nat → OfxResponse)
    (today overlap minDays minStart : Nat) (alwaysSave : Bool) (fuel : Nat)
    (h : (get_earliest_data download minStart today).1 = none) :
    save_single_account_data download today overlap minDays minStart alwaysSave
        fuel [] =
      some ((get_earliest_data download minStart today).2, [], []) := by
  rcases hq : get_earliest_data download minStart today with ⟨v, fs⟩
  rw [hq] at h
  simp only at h
  subst h
  unfold save_single_account_data
  rw [hq]
  simp

theorem c6_witness :
    save_single_account_data (fun _ => ⟨none, none, []⟩) 10 2 20 0 true 1 [] =
      some ([5, 7, 8, 9], [], []) :=
  (c6_bootstrap_failure_returns_cleanly (fun _ => ⟨none, none, []⟩)
      10 2 20 0 true 1 rfl).trans rfl

/-- C1 (amended): the gap-fill iteration stops exactly when the extracted
response's end date equals the selected interval's end date: in that case
`retrieve_more` returns `False` (so the loop stops at that position), the
response is persisted precisely when `always_save` is set, and the loop
issues no further fetch.  (A regressed end date, strictly before the
selected one, is persisted and the loop continues; see the
counterexample.) -/
theorem c1_equal_end_stops (download : Nat → OfxResponse)
    (today overlap minDays : Nat) (alwaysSave : Bool) (fuel : Nat)
    (ranges : List DateRange) (cur r : DateRange)
    (h1 : selectRange ranges = some cur)
    (h2 : get_ofx_date_range (download (cur.2 - overlap)) = some r)
    (h3 : r.2 = cur.2) :
    retrieve_more download overlap alwaysSave ranges =
        some ⟨false, [cur.2 - overlap],
          if alwaysSave then [r] else [],
          if alwaysSave then sortRanges (ranges ++ [r]) else ranges⟩ ∧
      phase2 download today overlap minDays alwaysSave (fuel + 1) ranges =
        some ([cur.2 - overlap],
          (if alwaysSave then [r] else []),
          (if alwaysSave then sortRanges (ranges ++ [r]) else ranges)) := by
  have hR : retrieve_more download overlap alwaysSave ranges =
      some ⟨false, [cur.2 - overlap],
        if alwaysSave then [r] else [],
        if alwaysSave then sortRanges (ranges ++ [r]) else ranges⟩ := by
    unfold retrieve_more
    rw [h1]
    dsimp only
    rw [h2]
    dsimp only
    rw [if_pos h3]
    cases alwaysSave <;> simp
  refine ⟨hR, ?_⟩
  simp only [phase2]
  rw [hR]
  dsimp only
  cases alwaysSave <;> simp

theorem c1_witness :
    retrieve_more (fun _ => ⟨some 0, some 10, []⟩) 2 false [(0, 10)] =
        some ⟨false, [8], [], [(0, 10)]⟩ ∧
      phase2 (fun _ => ⟨some 0, some 10, []⟩) 50 2 20 false 1 [(0, 10)] =
        some ([8], [], [(0, 10)]) :=
  c1_equal_end_stops (fun _ => ⟨some 0, some 10, []⟩) 50 2 20 false 0
    [(0, 10)] (0, 10) (0, 10) rfl rfl rfl

/-- C1 counterexample: the claim says the loop stops (and, with
`always_save=False`, persists nothing) whenever the response's end date does
not advance past the selected interval's end date, which includes a
regressed end date.  On Coverage Set `[(0, 10)]` with `always_save=False`, a
response covering `(0, 9)` — end date `9 ≤ 10`, a regressed interval — is
nevertheless persisted and `retrieve_more` returns `True`, so the loop
continues. -/
theorem c1_counterexample :
    (9 : Nat) ≤ 10 ∧
      retrieve_more (fun _ => ⟨some 0, some 9, []⟩) 2 false [(0, 10)] =
        some ⟨true, [8], [(0, 9)], [(0, 9), (0, 10)]⟩ :=
  ⟨by decide, rfl⟩

/-- C5 (amended): the caught-up condition is checked only after an iteration
of the loop: whenever `retrieve_more` reports forward progress and the most
recent interval's start date has come within `min_days_retrieved` days of
today, the loop stops with exactly that iteration's fetches — no further
fetch is issued.  (At loop entry the condition is not consulted, so one
fetch is always issued even when already caught up; see the
counterexample.) -/
theorem c5_caught_up_after_progress_stops (download : Nat → OfxResponse)
    (today overlap minDays : Nat) (alwaysSave : Bool) (fuel : Nat)
    (ranges : List DateRange) (res : MoreResult) (lastR : DateRange)
    (h1 : retrieve_more download overlap alwaysSave ranges = some res)
    (h2 : res.progress = true)
    (h3 : res.ranges.getLast? = some lastR)
    (h4 : today - lastR.1 ≤ minDays) :
    phase2 download today overlap minDays alwaysSave (fuel + 1) ranges =
      some (res.fetches, res.saved, res.ranges) := by
  simp only [phase2]
  rw [h1]
  dsimp only
  simp only [h2, if_true]
  rw [h3]
  dsimp only
  rw [if_pos h4]

theorem c5_witness :
    phase2 (fun _ => ⟨some 0, some 9, []⟩) 100 2 1000 false 1 [(0, 10)] =
      some ([8], [(0, 9)], [(0, 9), (0, 10)]) :=
  c5_caught_up_after_progress_stops (fun _ => ⟨some 0, some 9, []⟩)
    100 2 1000 false 0 [(0, 10)] ⟨true, [8], [(0, 9)], [(0, 9), (0, 10)]⟩
    (0, 10) rfl rfl rfl (by decide)

/-- C5 counterexample: with Coverage Set `[(8, 10)]`, `today = 10` and
`min_days_retrieved = 20`, the caught-up condition `10 - 8 ≤ 20` already
holds at loop entry, yet the run still issues a fetch (start date `8`):
the condition holding does not prevent further fetches, refuting the
claim's "whenever that condition holds, no further fetch is issued". -/
theorem c5_counterexample :
    10 - 8 ≤ 20 ∧
      phase2 (fun _ => ⟨some 8, some 10, []⟩) 10 2 20 true 1 [(8, 10)] =
        some ([8], [(8, 10)], [(8, 10), (8, 10)]) :=
  ⟨by decide, rfl⟩

/-- C9 (amended): on a run whose Coverage Set is non-empty, at least one
fetch is issued before the caught-up condition is ever consulted, and with
`always_save=True`, provided the first response yields a usable interval,
at least one file is written: any defined outcome of the loop has a
non-empty fetch list and a non-empty saved list.  (When the first response
carries no usable interval, the run can write no file at all; see the
counterexample.) -/
theorem c9_usable_first_response_saves (download : Nat → OfxResponse)
    (today overlap minDays : Nat) (fuel : Nat) (ranges : List DateRange)
    (cur r : DateRange) (out : List Nat × List DateRange × List DateRange)
    (h1 : selectRange ranges = some cur)
    (h2 : get_ofx_date_range (download (cur.2 - overlap)) = some r)
    (h3 : phase2 download today overlap minDays true fuel ranges = some out) :
    out.1 ≠ [] ∧ out.2.1 ≠ [] := by
  cases fuel with
  | zero => simp [phase2] at h3
  | succ n =>
    simp only [phase2] at h3
    by_cases he : r.2 = cur.2
    · have hR : retrieve_more download overlap true ranges =
          some ⟨false, [cur.2 - overlap], [r], sortRanges (ranges ++ [r])⟩ := by
        unfold retrieve_more
        rw [h1]
        dsimp only
        rw [h2]
        dsimp only
        rw [if_pos he]
        simp
      rw [hR] at h3
      dsimp only at h3
      simp only [Bool.false_eq_true, if_false] at h3
      rw [← Option.some_inj.mp h3]
      exact ⟨by simp, by simp⟩
    · have hR : retrieve_more download overlap true ranges =
          some ⟨true, [cur.2 - overlap], [r], sortRanges (ranges ++ [r])⟩ := by
        unfold retrieve_more
        rw [h1]
        dsimp only
        rw [h2]
        dsimp only
        rw [if_neg he]
      rw [hR] at h3
      dsimp only at h3
      simp only [if_true] at h3
      rcases hL : (sortRanges (ranges ++ [r])).getLast? with _ | lastR <;>
        rw [hL] at h3 <;> dsimp only at h3
      · exact absurd h3 (by simp)
      · by_cases hc : today - lastR.1 ≤ minDays
        · rw [if_pos hc] at h3
          rw [← Option.some_inj.mp h3]
          exact ⟨by simp, by simp⟩
        · rw [if_neg hc] at h3
          rcases hrec : phase2 download today overlap minDays true n
              (sortRanges (ranges ++ [r])) with _ | out'
          · rw [hrec] at h3
            exact absurd h3 (by simp)
          · rcases out' with ⟨fs, sv, rs⟩
            rw [hrec] at h3
            rw [← Option.some_inj.mp h3]
            exact ⟨by simp, by simp⟩

theorem c9_witness :
    (([8], [(0, 9)], [(0, 9), (0, 10)]) :
        List Nat × List DateRange × List DateRange).1 ≠ [] ∧
      (([8], [(0, 9)], [(0, 9), (0, 10)]) :
        List Nat × List DateRange × List DateRange).2.1 ≠ [] :=
  c9_usable_first_response_saves (fun _ => ⟨some 0, some 9, []⟩)
    100 2 1000 1 [(0, 10)] (0, 10) (0, 9) _ rfl rfl rfl

/-- C9 counterexample: with a non-empty Coverage Set `[(8, 10)]`,
`always_save=True`, and a server whose response carries no usable interval,
the run issues its fetch but writes no file at all (`saved = []`), refuting
the claim's "each such run writes at least one new file". -/
theorem c9_counterexample :
    10 - 8 ≤ 20 ∧
      phase2 (fun _ => ⟨none, none, []⟩) 10 2 20 true 1 [(8, 10)] =
        some ([8], [], [(8, 10)]) :=
  ⟨by decide, rfl⟩

/-- C2 (amended): `sanitize_account_name` does raise `ValueError` on the
literal names `.` and `..`, but `save_all_account_data` catches it, logs a
warning, uses the directory name `blank` instead, and still proceeds to
download and save data for that account — no error reaches the caller. -/
theorem c2_dot_names_fall_back_to_blank (number : List Char)
    (m : List (List Char × List Char))
    (hnum : number = ['.'] ∨ number = ['.', '.'])
    (hmap : lookupAcct m number = none) :
    sanitize_account_name number = Except.error () ∧
      accountDirName m number = ['b', 'l', 'a', 'n', 'k'] ∧
      ∀ download today overlap minDays minStart alwaysSave fuel existing,
        save_all_account_data [number] m download today overlap minDays
            minStart alwaysSave fuel existing =
          [(['b', 'l', 'a', 'n', 'k'],
            save_single_account_data (download number) today overlap minDays
              minStart alwaysSave fuel (existing number))] := by
  have hs : sanitize_account_name number = Except.error () := by
    unfold sanitize_account_name
    rw [if_pos hnum]
  have ha : accountDirName m number = ['b', 'l', 'a', 'n', 'k'] := by
    unfold accountDirName
    rw [hmap, hs]
  refine ⟨hs, ha, ?_⟩
  intro download today overlap minDays minStart alwaysSave fuel existing
  unfold save_all_account_data
  simp [ha]

theorem c2_witness :
    sanitize_account_name ['.'] = Except.error () ∧
      accountDirName [] ['.'] = ['b', 'l', 'a', 'n', 'k'] ∧
      save_all_account_data [['.']] [] (fun _ _ => ⟨none, none, []⟩)
          10 2 20 0 true 1 (fun _ => []) =
        [(['b', 'l', 'a', 'n', 'k'], some ([5, 7, 8, 9], [], []))] := by
  obtain ⟨h1, h2, h3⟩ :=
    c2_dot_names_fall_back_to_blank ['.'] [] (Or.inl rfl) rfl
  exact ⟨h1, h2,
    (h3 (fun _ _ => ⟨none, none, []⟩) 10 2 20 0 true 1 (fun _ => [])).trans rfl⟩

theorem selectSpec_singleton (r : DateRange) : selectSpec [r] = some r := by
  simp [selectSpec, List.range_succ_eq_map]

theorem selectSpec_cons_cons (r r' : DateRange) (rest : List DateRange) :
    selectSpec (r :: r' :: rest) =
      if r'.1 < r.2 then selectSpec (r' :: rest) else some r := by
  by_cases hlt : r'.1 < r.2
  · rw [if_pos hlt]
    unfold selectSpec
    simp only [List.length_cons]
    rw [List.range_succ_eq_map, List.find?_cons_of_neg, List.find?_map,
      Option.map_map]
    · have hfun : ∀ i : Nat,
          ((fun i => decide (i + 1 = rest.length + 1 + 1) ||
              decide (((r :: r' :: rest).getD i (0, 0)).2 ≤
                ((r :: r' :: rest).getD (i + 1) (0, 0)).1)) ∘ Nat.succ) i =
            (fun i => decide (i + 1 = rest.length + 1) ||
              decide (((r' :: rest).getD i (0, 0)).2 ≤
                ((r' :: rest).getD (i + 1) (0, 0)).1)) i := by
        intro i
        simp only [Function.comp_apply, Nat.succ_eq_add_one,
          List.getD_cons_succ]
        congr 1
        exact decide_eq_decide.mpr (by omega)
      rw [funext hfun]
      have hg : ((fun i => (r :: r' :: rest).getD i (0, 0)) ∘ Nat.succ) =
          fun i => (r' :: rest).getD i (0, 0) := by
        funext i
        simp [Nat.succ_eq_add_one, List.getD_cons_succ]
      rw [hg]
    · simp only [List.getD_cons_zero, List.getD_cons_succ, Nat.zero_add]
      have h1 : decide (1 = rest.length + 1 + 1) = false := by
        exact decide_eq_false (by omega)
      have h2 : decide (r.2 ≤ r'.1) = false :=
        decide_eq_false (by omega)
      simp [h1, h2]
  · rw [if_neg hlt]
    unfold selectSpec
    simp only [List.length_cons]
    rw [List.range_succ_eq_map, List.find?_cons_of_pos]
    · simp
    · simp only [List.getD_cons_zero, List.getD_cons_succ, Nat.zero_add]
      have h2 : decide (r.2 ≤ r'.1) = true := decide_eq_true (by omega)
      simp [h2]

theorem selectRange_eq_selectSpec : ∀ rs : List DateRange,
    selectRange rs = selectSpec rs := by
  intro rs
  induction rs with
  | nil => rfl
  | cons r tl ih =>
    cases tl with
    | nil => rw [selectSpec_singleton]; rfl
    | cons r' rest =>
      rw [selectSpec_cons_cons]
      unfold selectRange
      by_cases hlt : r'.1 < r.2
      · rw [if_pos hlt, if_pos hlt, ih]
      · rw [if_neg hlt, if_neg hlt]

/-- C4: the gap-fill step selects exactly the interval the spec describes —
the first position `i` whose end date does not exceed the start date of
interval `i + 1`, or the last interval when no such position exists
(`selectRange`, the code's scan, coincides with `selectSpec`, the spec's
rule) — and the fetch it issues starts at the selected interval's end date
minus `overlap_days`.  Instantiated at the Coverage Set
`[(1, 10), (20, 31)]` with `overlap_days = 2`, the fetch starts at `8`
(see the witness). -/
theorem c4_gap_selection (download : Nat → OfxResponse) (overlap : Nat)
    (alwaysSave : Bool) (rs : List DateRange) (cur : DateRange)
    (h : selectRange rs = some cur) :
    selectRange rs = selectSpec rs ∧
      (retrieve_more download overlap alwaysSave rs).map
          (fun res => res.fetches) =
        some [cur.2 - overlap] := by
  refine ⟨selectRange_eq_selectSpec rs, ?_⟩
  unfold retrieve_more
  rw [h]
  dsimp only
  cases hg : get_ofx_date_range (download (cur.2 - overlap)) with
  | none => simp
  | some r =>
    dsimp only
    by_cases he : r.2 = cur.2
    · rw [if_pos he]
      cases alwaysSave <;> simp
    · rw [if_neg he]
      simp

theorem c4_witness :
    selectRange [((1 : Nat), (10 : Nat)), (20, 31)] =
        selectSpec [(1, 10), (20, 31)] ∧
      (retrieve_more (fun _ => ⟨none, none, []⟩) 2 true
            [(1, 10), (20, 31)]).map (fun res => res.fetches) =
        some [8] :=
  c4_gap_selection (fun _ => ⟨none, none, []⟩) 2 true [(1, 10), (20, 31)]
    (1, 10) rfl

theorem binSearchAux_spec (download : Nat → OfxResponse) (T : Nat)
    (hmono : ∀ d, (get_ofx_date_range (download d)).isSome = true ↔ T ≤ d)
    (hstart : ∀ d r, get_ofx_date_range (download d) = some r → r.1 = d) :
    ∀ fuel lower upper valid,
      upper - lower ≤ fuel →
      lower ≤ T → T ≤ upper →
      (valid = none → 2 ≤ upper - lower ∧ T + 1 ≤ upper) →
      (∀ r, valid = some r → T ≤ r.1 ∧ r.1 = upper) →
      ∃ r, (binSearchAux download fuel lower upper valid).1 = some r ∧
        T ≤ r.1 ∧ r.1 ≤ T + 1 := by
  intro fuel
  induction fuel with
  | zero =>
    intro lower upper valid hf h1 h2 h3 h4
    cases valid with
    | none =>
      exfalso
      have := h3 rfl
      omega
    | some r =>
      have hh := h4 r rfl
      exact ⟨r, rfl, hh.1, by omega⟩
  | succ n ih =>
    intro lower upper valid hf h1 h2 h3 h4
    by_cases hc : lower + 1 < upper
    · cases hg : get_ofx_date_range (download (lower + (upper - lower) / 2)) with
      | some r0 =>
        have hTmid : T ≤ lower + (upper - lower) / 2 :=
          (hmono (lower + (upper - lower) / 2)).mp (by rw [hg]; rfl)
        have hr0 : r0.1 = lower + (upper - lower) / 2 := hstart _ r0 hg
        obtain ⟨r, hr, hrT, hrT'⟩ :=
          ih lower (lower + (upper - lower) / 2) (some r0) (by omega) h1 hTmid
            (by intro hv; exact absurd hv (by simp))
            (by
              intro r' h'
              have hrr : r0 = r' := by
                injection h'
              subst hrr
              exact ⟨by omega, hr0⟩)
        refine ⟨r, ?_, hrT, hrT'⟩
        simp only [binSearchAux]
        rw [if_pos hc]
        rw [hg]
        dsimp only
        exact hr
      | none =>
        have hmidT : lower + (upper - lower) / 2 < T := by
          by_contra hT
          push_neg at hT
          have hsome := (hmono (lower + (upper - lower) / 2)).mpr hT
          rw [hg] at hsome
          simp at hsome
        obtain ⟨r, hr, hrT, hrT'⟩ :=
          ih (lower + (upper - lower) / 2) upper valid (by omega) (by omega) h2
            (by
              intro hv
              obtain ⟨hA, hB⟩ := h3 hv
              exact ⟨by omega, hB⟩)
            h4
        refine ⟨r, ?_, hrT, hrT'⟩
        simp only [binSearchAux]
        rw [if_pos hc]
        rw [hg]
        dsimp only
        exact hr
    · simp only [binSearchAux]
      rw [if_neg hc]
      cases valid with
      | none =>
        exfalso
        have := h3 rfl
        omega
      | some r =>
        have hh := h4 r rfl
        exact ⟨r, rfl, hh.1, by omega⟩

theorem binSearchAux_count (download : Nat → OfxResponse) :
    ∀ fuel lower upper valid,
      upper - lower ≤ fuel →
      (binSearchAux download fuel lower upper valid).2.length ≤
        Nat.clog 2 (upper - lower) := by
  intro fuel
  induction fuel with
  | zero =>
    intro l u v hf
    simp [binSearchAux]
  | succ n ih =>
    intro l u v hf
    by_cases hc : l + 1 < u
    · have hg2 : 2 ≤ u - l := by omega
      have hsplit := Nat.clog_of_two_le (b := 2) (n := u - l) (by norm_num) hg2
      cases hg : get_ofx_date_range (download (l + (u - l) / 2)) with
      | some r =>
        have hrec := ih l (l + (u - l) / 2) (some r) (by omega)
        have hmono2 : Nat.clog 2 ((l + (u - l) / 2) - l) ≤
            Nat.clog 2 ((u - l + 2 - 1) / 2) :=
          Nat.clog_mono_right 2 (by omega)
        simp only [binSearchAux]
        rw [if_pos hc]
        rw [hg]
        dsimp only
        simp only [List.length_cons]
        omega
      | none =>
        have hrec := ih (l + (u - l) / 2) u v (by omega)
        have hmono2 : Nat.clog 2 (u - (l + (u - l) / 2)) ≤
            Nat.clog 2 ((u - l + 2 - 1) / 2) :=
          Nat.clog_mono_right 2 (by omega)
        simp only [binSearchAux]
        rw [if_pos hc]
        rw [hg]
        dsimp only
        simp only [List.length_cons]
        omega
    · simp only [binSearchAux]
      rw [if_neg hc]
      simp

/-- C3 (amended): for a server that returns a valid dated response exactly
for fetches starting at or after `T` (the response echoing the requested
start date), with `min_start_date ≤ T ≤ today - 1` and at least two days
between `min_start_date` and `today`, the bootstrap binary search yields a
final valid interval whose start date is within one day of `T`
(`T ≤ start ≤ T + 1`), issuing at most `⌈log₂ (today - min_start_date)⌉`
fetches.  (For `T = today` the search observes no valid response and yields
nothing — the `RuntimeError` path; see the counterexample.) -/
theorem c3_binary_search_convergence (download : Nat → OfxResponse)
    (minStart today T : Nat)
    (hmono : ∀ d, (get_ofx_date_range (download d)).isSome = true ↔ T ≤ d)
    (hstart : ∀ d r, get_ofx_date_range (download d) = some r → r.1 = d)
    (h1 : minStart ≤ T) (h2 : T + 1 ≤ today) (h3 : minStart + 2 ≤ today) :
    (∃ r, (get_earliest_data download minStart today).1 = some r ∧
        T ≤ r.1 ∧ r.1 ≤ T + 1) ∧
      (get_earliest_data download minStart today).2.length ≤
        Nat.clog 2 (today - minStart) := by
  constructor
  · exact binSearchAux_spec download T hmono hstart (today - minStart) minStart
      today none le_rfl h1 (by omega) (fun _ => ⟨by omega, by omega⟩)
      (fun r hr => by simp at hr)
  · exact binSearchAux_count download (today - minStart) minStart today none
      le_rfl

theorem c3_witness :
    (∃ r,
        (get_earliest_data
              (fun d => if 5 ≤ d then ⟨some d, some 10, []⟩
                else ⟨none, none, []⟩) 0 10).1 = some r ∧
          5 ≤ r.1 ∧ r.1 ≤ 5 + 1) ∧
      (get_earliest_data
            (fun d => if 5 ≤ d then ⟨some d, some 10, []⟩
              else ⟨none, none, []⟩) 0 10).2.length ≤
        Nat.clog 2 (10 - 0) :=
  c3_binary_search_convergence
    (fun d => if 5 ≤ d then ⟨some d, some 10, []⟩ else ⟨none, none, []⟩)
    0 10 5
    (by
      intro d
      by_cases h : 5 ≤ d <;> simp [get_ofx_date_range, h])
    (by
      intro d r hr
      by_cases h : 5 ≤ d
      · simp only [h, if_true, get_ofx_date_range, Option.some.injEq] at hr
        rw [← hr]
      · simp [get_ofx_date_range, h] at hr)
    (by omega) (by omega) (by omega)

/-- C3 counterexample: the claim quantifies over all `T` with
`min_start_date ≤ T ≤ today`.  Take `min_start_date = 0`, `today = 10` and
`T = 10`: the server is valid for every fetch starting at or after `T` (the
first conjunct shows a fetch at `10` succeeds), yet the binary search only
ever probes strictly before `today`, observes no valid response, and yields
no interval at all (the `RuntimeError` path), refuting the claimed
convergence to an interval within one day of `T`. -/
theorem c3_counterexample :
    (get_ofx_date_range
          ((fun d => if 10 ≤ d then OfxResponse.mk (some d) (some 10) []
            else ⟨none, none, []⟩) 10)).isSome = true ∧
      (get_earliest_data
            (fun d => if 10 ≤ d then ⟨some d, some 10, []⟩
              else ⟨none, none, []⟩) 0 10).1 = none :=
  ⟨rfl, rfl⟩

/-- C2 counterexample: for the account named `.` with no `acct_dir_map`
override, the synchronizer does not raise any caller-visible error: the run
completes normally, the account is synchronized under the directory name
`blank`, and fetches (start dates `5, 7, 8, 9` of the bootstrap search) are
issued — data download is attempted, contrary to the claim. -/
theorem c2_counterexample :
    save_all_account_data [['.']] [] (fun _ _ => ⟨none, none, []⟩)
        10 2 20 0 true 1 (fun _ => []) =
      [(['b', 'l', 'a', 'n', 'k'], some ([5, 7, 8, 9], [], []))] ∧
      ([5, 7, 8, 9] : List Nat) ≠ [] :=
  ⟨rfl, by decide⟩

end FinanceDl
